import Mathlib

/-
Verification of the example-materializer script `setup_example_repos.py`.

The script is embedded shallowly: its pure text transformations
(`find_example_assets`, `_clean_python_file`, `_create_clean_readme`) become
Lean functions over `String` / `List String`; the effectful parts
(`create_example_repo`, `main`) become functions producing an explicit trace
of filesystem / subprocess actions, with the filesystem modelled as an
existence predicate `String → Bool` and file contents as `String → String`.
Filesystem paths built by `pathlib` joins of relative components are modelled
as strings joined with "/".
-/

set_option maxRecDepth 100000

/-- Quote character (") as used by the asset-reference regular expressions. -/
def quoteChar : Char := Char.ofNat 34

/-- Apostrophe character as used by the asset-reference regular expressions. -/
def aposChar : Char := Char.ofNat 39

/-- Newline character. -/
def nlChar : Char := Char.ofNat 10

def isQuoteChar (c : Char) : Bool := c = quoteChar || c = aposChar

/-- ASCII whitespace: the characters stripped by Python `str.strip()` and
matched by the regex class `\s` (restricted to ASCII, which is all that the
inputs at hand contain). -/
def isPySpace (c : Char) : Bool :=
  c = ' ' || c = Char.ofNat 9 || c = Char.ofNat 10 || c = Char.ofNat 13 ||
    c = Char.ofNat 11 || c = Char.ofNat 12

/-- Python `str.strip()` on the character list. -/
def pyStripData (cs : List Char) : List Char :=
  ((cs.dropWhile isPySpace).reverse.dropWhile isPySpace).reverse

/-- Python `str.strip()`. -/
def pyStrip (s : String) : String := String.mk (pyStripData s.data)

/-- Python `str.startswith`. -/
def strStarts (s pre : String) : Bool := pre.data.isPrefixOf s.data

/-- Does `sub` occur as a contiguous run inside the list? -/
def subOccurs (sub : List Char) : List Char → Bool
  | [] => sub.isEmpty
  | c :: cs => sub.isPrefixOf (c :: cs) || subOccurs sub cs

/-- Python `sub in s` substring test. -/
def strContains (s sub : String) : Bool := subOccurs sub.data s.data

/-- Python `content.split('\n')`, accumulator-based. -/
def splitLinesAux : List Char → List Char → List String
  | acc, [] => [String.mk acc.reverse]
  | acc, c :: cs =>
    if c = nlChar then String.mk acc.reverse :: splitLinesAux [] cs
    else splitLinesAux (c :: acc) cs

/-- Python `content.split('\n')`. -/
def splitLines (s : String) : List String := splitLinesAux [] s.data

/-- Python `'\n'.join(lines)`, producing the character list. -/
def joinLinesData : List String → List Char
  | [] => []
  | [l] => l.data
  | l :: ls => l.data ++ nlChar :: joinLinesData ls

/-- Python `'\n'.join(lines)`. -/
def joinLines (ls : List String) : String := String.mk (joinLinesData ls)

/-! ### Asset resolution (`find_example_assets`)

Pattern 1 is the regex `assets_folder\s*/\s*["']([^"']+)["']`, pattern 2 is
`["'](?:assets|figures)/([^"']+)["']`.  Both scanners mirror `re.finditer`:
leftmost match first, continuing after the end of each match, advancing one
character after a failed position. -/

def assetsFolderLit : List Char := "assets_folder".data

/-- Match `([^"']+)["']`: a nonempty run of non-quote characters followed by a
closing quote.  Returns the captured group and the remainder after the
closing quote. -/
def matchBodyToQuote (cs : List Char) : Option (String × List Char) :=
  let run := cs.takeWhile (fun c => !(isQuoteChar c))
  match cs.dropWhile (fun c => !(isQuoteChar c)) with
  | _ :: rest => if run.isEmpty then none else some (String.mk run, rest)
  | [] => none

/-- Try to match pattern 1 at the start of `cs`. -/
def matchP1At (cs : List Char) : Option (String × List Char) :=
  if assetsFolderLit.isPrefixOf cs then
    match (cs.drop 13).dropWhile isPySpace with
    | c :: cs2 =>
      if c = '/' then
        match cs2.dropWhile isPySpace with
        | q :: cs3 => if isQuoteChar q then matchBodyToQuote cs3 else none
        | [] => none
      else none
    | [] => none
  else none

/-- `re.finditer` scan for pattern 1; the fuel argument is initialised with the
length of the text, which bounds the number of scanning steps. -/
def scanP1 : Nat → List Char → List String
  | 0, _ => []
  | _ + 1, [] => []
  | n + 1, c :: cs =>
    match matchP1At (c :: cs) with
    | some (g, rest) => g :: scanP1 n rest
    | none => scanP1 n cs

def assetsDirLit : List Char := "assets/".data
def figuresDirLit : List Char := "figures/".data

/-- Try to match pattern 2 at the start of the list. -/
def matchP2At : List Char → Option (String × List Char)
  | [] => none
  | c :: cs =>
    if isQuoteChar c then
      if assetsDirLit.isPrefixOf cs then matchBodyToQuote (cs.drop 7)
      else if figuresDirLit.isPrefixOf cs then matchBodyToQuote (cs.drop 8)
      else none
    else none

/-- `re.finditer` scan for pattern 2. -/
def scanP2 : Nat → List Char → List String
  | 0, _ => []
  | _ + 1, [] => []
  | n + 1, c :: cs =>
    match matchP2At (c :: cs) with
    | some (g, rest) => g :: scanP2 n rest
    | none => scanP2 n cs

/-- `self.source_dir / subdir / asset_file` modelled as string join. -/
def assetPath (sourceDir subdir file : String) : String :=
  sourceDir ++ "/" ++ subdir ++ "/" ++ file

/-- Python `p in assets` membership test on the accumulated list. -/
def memStr (p : String) : List String → Bool
  | [] => false
  | q :: l => (q == p) || memStr p l

/-- The pattern-1 loop: for each captured filename, append
`source_dir/assets/file` whenever it exists (no membership check). -/
def resolveP1 (ex : String → Bool) (sourceDir : String) :
    List String → List String → List String
  | [], acc => acc
  | f :: fs, acc =>
    resolveP1 ex sourceDir fs
      (if ex (assetPath sourceDir "assets" f) then
        acc ++ [assetPath sourceDir "assets" f]
      else acc)

/-- One probe of the pattern-2 loop body:
`if asset_path.exists() and asset_path not in assets: assets.append(asset_path)`. -/
def addIfNew (ex : String → Bool) (p : String) (acc : List String) : List String :=
  if ex p && !(memStr p acc) then acc ++ [p] else acc

/-- The pattern-2 loop: for each captured filename, probe the `assets`
subdirectory and then the `figures` subdirectory. -/
def resolveP2 (ex : String → Bool) (sourceDir : String) :
    List String → List String → List String
  | [], acc => acc
  | f :: fs, acc =>
    resolveP2 ex sourceDir fs
      (addIfNew ex (assetPath sourceDir "figures" f)
        (addIfNew ex (assetPath sourceDir "assets" f) acc))

/-- The asset list after the pattern-1 loop of `find_example_assets`. -/
def phase1Assets (ex : String → Bool) (sourceDir content : String) : List String :=
  resolveP1 ex sourceDir (scanP1 content.data.length content.data) []

/-- `find_example_assets`: pattern-1 loop followed by the pattern-2 loop,
over the text of the example file.  `ex` is the filesystem existence check. -/
def findExampleAssets (ex : String → Bool) (sourceDir content : String) : List String :=
  resolveP2 ex sourceDir (scanP2 content.data.length content.data)
    (phase1Assets ex sourceDir content)

/-- Number of occurrences of a path in a resolved asset list. -/
def countOcc (p : String) : List String → Nat
  | [] => 0
  | q :: l => (if q = p then 1 else 0) + countOcc p l

/-! ### Source cleaning (`_clean_python_file`)

The function reads, transforms and rewrites the entry-point file; here the
text transformation itself is embedded as `cleanPythonText`. -/

/-- The triple-quote delimiter. -/
def tripleQuoteStr : String := String.mk [quoteChar, quoteChar, quoteChar]

/-- One step of the line-filtering loop of `_clean_python_file`.  The state is
the pair of flags `(in_doc_block, in_with_block)`; the result is the new state
plus the line, when kept. -/
def lineStep (st : Bool × Bool) (line : String) : (Bool × Bool) × Option String :=
  if strContains line "from cmx import doc" || strContains line "MAKE_DOCS" then
    (st, none)
  else if strStarts (pyStrip line) "MAKE_DOCS =" then (st, none)
  else if strStarts (pyStrip line) "doc @" then ((true, st.2), none)
  else if st.1 then
    (if strContains line tripleQuoteStr then ((false, st.2), none) else (st, none))
  else if strContains line "with doc" then ((st.1, true), none)
  else if strContains line "from contextlib import nullcontext" then (st, none)
  else (st, some line)

/-- The line-filtering loop of `_clean_python_file`. -/
def filterLines : Bool × Bool → List String → List String
  | _, [] => []
  | st, l :: ls =>
    match lineStep st l with
    | (st2, some out) => out :: filterLines st2 ls
    | (st2, none) => filterLines st2 ls

/-- Python `line.strip() == ''`. -/
def isBlankLine (l : String) : Bool := (pyStrip l).data.isEmpty

/-- `while cleaned_lines and cleaned_lines[0].strip() == '': pop(0)`. -/
def dropLeadingBlanks : List String → List String
  | [] => []
  | l :: ls => if isBlankLine l then dropLeadingBlanks ls else l :: ls

/-- Python `line.startswith('    ')`. -/
def startsFourSpaces (l : String) : Bool := strStarts l "    "

/-- `sum(1 for line in cleaned_lines if line and line.startswith('    '))`:
nonempty lines (blank or not) that begin with at least four spaces. -/
def dedentIndentedCount (ls : List String) : Nat :=
  (ls.filter (fun l => !l.data.isEmpty && startsFourSpaces l)).length

/-- `sum(1 for line in cleaned_lines if line.strip())`: non-blank lines. -/
def dedentTotalCount (ls : List String) : Nat :=
  (ls.filter (fun l => !(isBlankLine l))).length

/-- `total_lines > 0 and indented_count / total_lines > 0.5`.  The float
comparison is exact at these magnitudes, and equals `total < 2 * indented`. -/
def dedentCond (ls : List String) : Bool :=
  decide (0 < dedentTotalCount ls) &&
    decide (dedentTotalCount ls < 2 * dedentIndentedCount ls)

/-- `line[4:] if line.startswith('    ') else line`. -/
def dedentLine (l : String) : String :=
  if startsFourSpaces l then String.mk (l.data.drop 4) else l

/-- The dedent heuristic of `_clean_python_file`. -/
def dedentStep (ls : List String) : List String :=
  if dedentCond ls then ls.map dedentLine else ls

/-- The whole line-list transformation of `_clean_python_file`. -/
def cleanLines (ls : List String) : List String :=
  dedentStep (dropLeadingBlanks (filterLines (false, false) ls))

/-- `_clean_python_file` as a text transformation. -/
def cleanPythonText (s : String) : String := joinLines (cleanLines (splitLines s))

/-! Variant of the cleaner with the (never read) `in_with_block` flag removed,
written from the specification's description for the refinement claim C6. -/

/-- `lineStep` with the with-block flag removed. -/
def lineStepNoWith (db : Bool) (line : String) : Bool × Option String :=
  if strContains line "from cmx import doc" || strContains line "MAKE_DOCS" then
    (db, none)
  else if strStarts (pyStrip line) "MAKE_DOCS =" then (db, none)
  else if strStarts (pyStrip line) "doc @" then (true, none)
  else if db then
    (if strContains line tripleQuoteStr then (false, none) else (db, none))
  else if strContains line "with doc" then (db, none)
  else if strContains line "from contextlib import nullcontext" then (db, none)
  else (db, some line)

/-- `filterLines` with the with-block flag removed. -/
def filterLinesNoWith : Bool → List String → List String
  | _, [] => []
  | db, l :: ls =>
    match lineStepNoWith db l with
    | (db2, some out) => out :: filterLinesNoWith db2 ls
    | (db2, none) => filterLinesNoWith db2 ls

/-- `cleanLines` with the with-block flag removed. -/
def cleanLinesNoWith (ls : List String) : List String :=
  dedentStep (dropLeadingBlanks (filterLinesNoWith false ls))

/-- `cleanPythonText` with the with-block flag removed. -/
def cleanPythonTextNoWith (s : String) : String :=
  joinLines (cleanLinesNoWith (splitLines s))

/-! ### README cleaning (`_create_clean_readme`) -/

/-- The fixed usage section appended to every cleaned README. -/
def usageLines : List String :=
  ["", "## Usage", "", "```bash", "pip install -r requirements.txt",
   "python main.py", "```", "",
   "Then open your browser to `http://localhost:8012`"]

/-- The fence-stripping loop of `_create_clean_readme`; the flag is
`in_code_block`. -/
def readmeFilter : Bool → List String → List String
  | _, [] => []
  | inCode, l :: ls =>
    if pyStrip l == "```python" then readmeFilter true ls
    else if inCode && (pyStrip l == "```") then readmeFilter false ls
    else if inCode then readmeFilter inCode ls
    else l :: readmeFilter inCode ls

/-- `_create_clean_readme` as a line-list transformation. -/
def cleanReadmeLines (ls : List String) : List String :=
  readmeFilter false ls ++ usageLines

/-- `_create_clean_readme` as a text transformation. -/
def cleanReadmeText (s : String) : String :=
  joinLines (cleanReadmeLines (splitLines s))

/-! ### Effect model of `create_example_repo` and `main`

Filesystem and subprocess effects are recorded as an explicit action trace;
reads are pure (`ex` for existence, `readF` for contents), messages appear as
`print` actions (their text abbreviated where the script interpolates). -/

inductive Effect where
  | print (msg : String)
  | mkdirp (path : String)
  | copyFile (src dst : String)
  | writeFile (path : String)
  | subproc (cmd : List String)
  | chdir (path : String)
deriving DecidableEq

/-- `Path.name`: the last slash-separated component. -/
def lastComponent (p : String) : String :=
  String.mk ((p.data.reverse.takeWhile (fun c => !(c = '/'))).reverse)

/-- The action trace of `create_example_repo` for one example. -/
def createExampleRepoActions (dryRun : Bool) (ex : String → Bool)
    (readF : String → String) (sourceDir targetBase cwd name pyFile : String)
    (mdFile : Option String) : List Effect :=
  let repoDir := targetBase ++ "/vuer-example-" ++ name
  if dryRun then [Effect.print ("[DRY RUN] Would create repo at: " ++ repoDir)]
  else
    [Effect.mkdirp repoDir,
     Effect.copyFile pyFile (repoDir ++ "/main.py"),
     Effect.writeFile (repoDir ++ "/main.py")] ++
    (match mdFile with
     | some _ => [Effect.writeFile (repoDir ++ "/README.md")]
     | none => [Effect.writeFile (repoDir ++ "/README.md")]) ++
    (let assets := findExampleAssets ex sourceDir (readF pyFile)
     if assets.isEmpty then []
     else
       Effect.mkdirp (repoDir ++ "/assets") ::
         assets.map (fun a => Effect.copyFile a (repoDir ++ "/assets/" ++ lastComponent a))) ++
    [Effect.writeFile (repoDir ++ "/requirements.txt"),
     Effect.writeFile (repoDir ++ "/.gitignore"),
     Effect.chdir repoDir,
     Effect.subproc ["git", "init"],
     Effect.subproc ["git", "add", "."],
     Effect.subproc ["git", "commit", "-m", "Initial commit for " ++ name ++ " example"],
     Effect.print "  Initialized git repo and committed files",
     Effect.chdir cwd,
     Effect.print ("Created example repo: " ++ repoDir)]

/-- The per-example body of the processing loop in `main`. -/
def processExample (dryRun : Bool) (ex : String → Bool) (readF : String → String)
    (sourceDir targetBase cwd : String) (e : String × String × Option String) :
    List Effect :=
  Effect.print ("Processing: " ++ e.1) ::
    createExampleRepoActions dryRun ex readF sourceDir targetBase cwd e.1 e.2.1 e.2.2

/-- `main`: source-directory check, optional `--example` filter, then the
processing loop.  `examples` is the discovery result (name, py file, optional
md file); the return value is the exit status together with the action trace. -/
def mainRun (dryRun : Bool) (ex : String → Bool) (readF : String → String)
    (sourceDir targetBase cwd : String) (sourceExists : Bool)
    (examples : List (String × String × Option String)) (filt : Option String) :
    Nat × List Effect :=
  if sourceExists then
    match filt with
    | some name =>
      let exs := examples.filter (fun e => e.1 == name)
      if exs.isEmpty then (1, [Effect.print "Error: Example not found"])
      else
        (0, Effect.print "Found examples" ::
          ((exs.map (processExample dryRun ex readF sourceDir targetBase cwd)).flatten ++
            [Effect.print "Summary"]))
    | none =>
      (0, Effect.print "Found examples" ::
        ((examples.map (processExample dryRun ex readF sourceDir targetBase cwd)).flatten ++
          [Effect.print "Summary"]))
  else (1, [Effect.print "Error: Source directory not found"])

/-- Is the action a pure message? -/
def Effect.isPrintMsg : Effect → Bool
  | Effect.print _ => true
  | _ => false

/-- Is the action a directory creation? -/
def Effect.isMkdir : Effect → Bool
  | Effect.mkdirp _ => true
  | _ => false

/-! ### Basic lemmas -/

lemma stringMk_data (s : String) : String.mk s.data = s := by
  cases s
  rfl

lemma stringData_append (a b : String) : (a ++ b).data = a.data ++ b.data := by
  cases a
  cases b
  rfl

lemma memStr_append (p : String) (a b : List String) :
    memStr p (a ++ b) = (memStr p a || memStr p b) := by
  induction a with
  | nil => simp [memStr]
  | cons q l ih => simp [memStr, ih, Bool.or_assoc]

lemma countOcc_append (p : String) (a b : List String) :
    countOcc p (a ++ b) = countOcc p a + countOcc p b := by
  induction a with
  | nil => simp [countOcc]
  | cons q l ih =>
    show (if q = p then 1 else 0) + countOcc p (l ++ b) =
      (if q = p then 1 else 0) + countOcc p l + countOcc p b
    rw [ih]
    omega

lemma memStr_false_countOcc (p : String) :
    ∀ l, memStr p l = false → countOcc p l = 0 := by
  intro l
  induction l with
  | nil => intro _; rfl
  | cons q l ih =>
    intro h
    simp only [memStr, Bool.or_eq_false_iff] at h
    have hne : q ≠ p := by simpa using h.1
    simp [countOcc, hne, ih h.2]

lemma countOcc_le_addIfNew (ex : String → Bool) (q p : String) (acc : List String) :
    countOcc p acc ≤ countOcc p (addIfNew ex q acc) := by
  unfold addIfNew
  split
  · rw [countOcc_append]
    omega
  · exact le_refl _

lemma countOcc_addIfNew_le_max (ex : String → Bool) (q p : String) (acc : List String)
    (C : Nat) (h : countOcc p acc ≤ max C 1) :
    countOcc p (addIfNew ex q acc) ≤ max C 1 := by
  unfold addIfNew
  split
  case isTrue hc =>
    simp only [Bool.and_eq_true, Bool.not_eq_true'] at hc
    by_cases hqp : q = p
    · subst hqp
      have h0 : countOcc q acc = 0 := memStr_false_countOcc q acc hc.2
      have h1 : countOcc q (acc ++ [q]) = 1 := by
        rw [countOcc_append, h0]
        simp [countOcc]
      rw [h1]
      exact le_max_right C 1
    · have h1 : countOcc p (acc ++ [q]) = countOcc p acc := by
        rw [countOcc_append]
        simp [countOcc, hqp]
      rw [h1]
      exact h
  case isFalse => exact h

lemma resolveP2_countOcc_ge (ex : String → Bool) (sd p : String) :
    ∀ fs acc, countOcc p acc ≤ countOcc p (resolveP2 ex sd fs acc) := by
  intro fs
  induction fs with
  | nil =>
    intro acc
    simp only [resolveP2]
    exact le_refl _
  | cons f fs ih =>
    intro acc
    simp only [resolveP2]
    exact le_trans
      (le_trans (countOcc_le_addIfNew ex (assetPath sd "assets" f) p acc)
        (countOcc_le_addIfNew ex (assetPath sd "figures" f) p _))
      (ih _)

lemma resolveP2_countOcc_le_max (ex : String → Bool) (sd p : String) (C : Nat) :
    ∀ fs acc, countOcc p acc ≤ max C 1 →
      countOcc p (resolveP2 ex sd fs acc) ≤ max C 1 := by
  intro fs
  induction fs with
  | nil =>
    intro acc h
    simpa only [resolveP2] using h
  | cons f fs ih =>
    intro acc h
    simp only [resolveP2]
    exact ih _ (countOcc_addIfNew_le_max ex _ p _ C
      (countOcc_addIfNew_le_max ex _ p acc C h))

lemma assetPath_assets_ne_figures (sd f : String) :
    assetPath sd "assets" f ≠ assetPath sd "figures" f := by
  intro h
  have h2 : (assetPath sd "assets" f).data.length =
      (assetPath sd "figures" f).data.length := by rw [h]
  simp only [assetPath, stringData_append, List.length_append] at h2
  have e1 : "assets".data.length = 6 := rfl
  have e2 : "figures".data.length = 7 := rfl
  have e3 : "/".data.length = 1 := rfl
  simp only [e1, e2, e3] at h2
  omega

/-! ### Claims C1 and C2: asset-resolution deduplication -/

/-- Claim C1, counterexample: a filename referenced twice via the
`assets_folder` pattern and resolving to the same existing path appears twice
in the result, refuting the claim that each resolved path appears at most
once. -/
theorem C1_counterexample :
    countOcc ("ex/assets/m.obj")
      (findExampleAssets (fun p => p == "ex/assets/m.obj") "ex"
        "a = assets_folder / \"m.obj\"\nb = assets_folder / \"m.obj\"") = 2 := by
  decide

/-- Claim C1, amended: deduplication applies only to pattern-2 additions.
Every path occurs in the final result at least as often as in the pattern-1
phase result, and at most `max` of that pattern-1 multiplicity and one; so a
path referenced through the bare-quoted pattern (or through both patterns) is
added at most once beyond its pattern-1 occurrences, while pattern-1
occurrences are appended unconditionally. -/
theorem C1_amended (ex : String → Bool) (sd content p : String) :
    countOcc p (phase1Assets ex sd content) ≤
      countOcc p (findExampleAssets ex sd content) ∧
    countOcc p (findExampleAssets ex sd content) ≤
      max (countOcc p (phase1Assets ex sd content)) 1 := by
  constructor
  · exact resolveP2_countOcc_ge ex sd p _ _
  · exact resolveP2_countOcc_le_max ex sd p _ _ _ (le_max_left _ _)

/-- Claim C2, counterexample: for a candidate filename that exists in both
probed subdirectories, the result contains both resolved paths, refuting the
claim that only the first existing path (the `assets` one) is accepted. -/
theorem C2_counterexample :
    findExampleAssets
        (fun p => p == "ex/assets/p.png" || p == "ex/figures/p.png") "ex"
        "img = \"assets/p.png\"" = ["ex/assets/p.png", "ex/figures/p.png"] ∧
    "ex/figures/p.png" ∈
      findExampleAssets
        (fun p => p == "ex/assets/p.png" || p == "ex/figures/p.png") "ex"
        "img = \"assets/p.png\"" := by
  constructor
  · decide
  · decide

/-- Claim C2, amended: for each candidate filename of the bare-quoted pattern
the two subdirectories are probed in the fixed order `assets` then `figures`,
and every existing probed path not already in the result is appended; when the
file exists in both subdirectories, both paths are appended, the `assets` one
first. -/
theorem C2_amended (ex : String → Bool) (sd f : String) (acc : List String)
    (h1 : ex (assetPath sd "assets" f) = true)
    (h2 : ex (assetPath sd "figures" f) = true)
    (h3 : memStr (assetPath sd "assets" f) acc = false)
    (h4 : memStr (assetPath sd "figures" f) acc = false) :
    resolveP2 ex sd [f] acc =
      acc ++ [assetPath sd "assets" f, assetPath sd "figures" f] := by
  simp only [resolveP2]
  have hstep1 : addIfNew ex (assetPath sd "assets" f) acc =
      acc ++ [assetPath sd "assets" f] := by
    unfold addIfNew
    rw [if_pos]
    rw [h1, h3]
    rfl
  rw [hstep1]
  have hne : (assetPath sd "assets" f == assetPath sd "figures" f) = false := by
    simpa using assetPath_assets_ne_figures sd f
  have hmem2 : memStr (assetPath sd "figures" f)
      (acc ++ [assetPath sd "assets" f]) = false := by
    rw [memStr_append, h4]
    simp [memStr, hne]
  have hstep2 : addIfNew ex (assetPath sd "figures" f)
      (acc ++ [assetPath sd "assets" f]) =
      (acc ++ [assetPath sd "assets" f]) ++ [assetPath sd "figures" f] := by
    unfold addIfNew
    rw [if_pos]
    rw [h2, hmem2]
    rfl
  rw [hstep2, List.append_assoc]
  rfl

/-- Claim C2 witness: the amended statement at a concrete input. -/
theorem C2_witness :
    resolveP2 (fun p => p == "ex/assets/p.png" || p == "ex/figures/p.png") "ex"
      ["p.png"] [] =
      [] ++ [assetPath "ex" "assets" "p.png", assetPath "ex" "figures" "p.png"] :=
  C2_amended (fun p => p == "ex/assets/p.png" || p == "ex/figures/p.png")
    "ex" "p.png" [] (by decide) (by decide) (by decide) (by decide)

/-! ### Claim C4: the dedent heuristic -/

/-- Zero leading space characters. -/
def noLeadSpace (l : String) : Bool :=
  match l.data with
  | [] => true
  | c :: _ => !(c = ' ')

/-- The line is indented by exactly four spaces: it starts with four spaces
and the fifth character, if any, is not a space. -/
def exactlyFourIndent (l : String) : Bool :=
  startsFourSpaces l && noLeadSpace (String.mk (l.data.drop 4))

lemma length_filter_le_of_imp {α : Type} (p q : α → Bool) (ls : List α)
    (h : ∀ a ∈ ls, p a = true → q a = true) :
    (ls.filter p).length ≤ (ls.filter q).length := by
  induction ls with
  | nil => simp
  | cons a l ih =>
    have ih2 := ih (fun b hb => h b (List.mem_cons_of_mem a hb))
    by_cases hp : p a = true
    · have hq := h a (List.mem_cons_self a l) hp
      simpa [List.filter_cons, hp, hq] using Nat.succ_le_succ ih2
    · have hp2 : p a = false := by simpa using hp
      by_cases hq : q a = true
      · simp only [List.filter_cons, hp2, hq]
        simp only [Bool.false_eq_true, if_false, if_true, List.length_cons]
        exact le_trans ih2 (Nat.le_succ _)
      · have hq2 : q a = false := by simpa using hq
        simpa [List.filter_cons, hp2, hq2] using ih2

lemma filter_eq_nil_of_false {α : Type} (p : α → Bool) (ls : List α)
    (h : ∀ a ∈ ls, p a = false) : ls.filter p = [] := by
  induction ls with
  | nil => rfl
  | cons a l ih =>
    simp only [List.filter_cons, h a (List.mem_cons_self a l)]
    simpa using ih (fun b hb => h b (List.mem_cons_of_mem a hb))

lemma startsFour_shape (l : String) (h : startsFourSpaces l = true) :
    l.data = ' ' :: ' ' :: ' ' :: ' ' :: l.data.drop 4 := by
  have h4 : "    ".data = [' ', ' ', ' ', ' '] := rfl
  unfold startsFourSpaces strStarts at h
  rw [h4] at h
  rcases hl : l.data with _ | ⟨c1, _ | ⟨c2, _ | ⟨c3, _ | ⟨c4, rest⟩⟩⟩⟩ <;>
    rw [hl] at h <;> simp [List.isPrefixOf] at h
  obtain ⟨e1, e2, e3, e4⟩ := h
  subst e1
  subst e2
  subst e3
  subst e4
  simp

lemma pyStripData_cons_space (cs : List Char) :
    pyStripData (' ' :: cs) = pyStripData cs := by
  have hsp : isPySpace ' ' = true := by decide
  unfold pyStripData
  rw [List.dropWhile_cons, hsp]
  simp

lemma pyStripData_drop4 (l : String) (h : startsFourSpaces l = true) :
    pyStripData (l.data.drop 4) = pyStripData l.data := by
  conv_rhs => rw [startsFour_shape l h]
  rw [pyStripData_cons_space, pyStripData_cons_space, pyStripData_cons_space,
    pyStripData_cons_space]

lemma isBlank_dedentLine (l : String) :
    isBlankLine (dedentLine l) = isBlankLine l := by
  unfold dedentLine
  split
  case isTrue h =>
    show (pyStripData (l.data.drop 4)).isEmpty = (pyStripData l.data).isEmpty
    rw [pyStripData_drop4 l h]
  case isFalse h => rfl

/-- Claim C4, counterexample: in the input `["a", "    ", "    "]` no
non-blank line starts with four spaces (the claimed fraction is zero, so the
claim predicts no dedent and an unchanged text), yet the dedent step changes
the list: the code counts the two whitespace-only indented lines in the
numerator but not in the denominator. -/
theorem C4_counterexample :
    (["a", "    ", "    "].filter
        (fun l => !(isBlankLine l) && startsFourSpaces l)).length = 0 ∧
    dedentStep ["a", "    ", "    "] ≠ ["a", "    ", "    "] := by
  constructor
  · decide
  · decide

/-- Claim C4, amended: the numerator of the dedent fraction counts the
nonempty lines (blank or not) that start with at least four spaces, while the
denominator counts the non-blank lines; the dedent fires when twice the
numerator exceeds the denominator and then removes one four-space level from
every line starting with four spaces.  Consequently (a) if every non-blank
line is indented by exactly four spaces and at least one non-blank line
exists, every non-blank output line has zero leading spaces, and (b) if no
line starts with four spaces the list is unchanged. -/
theorem C4_amended (ls : List String) :
    ((∀ l ∈ ls, isBlankLine l = false → exactlyFourIndent l = true) →
      (∃ l, l ∈ ls ∧ isBlankLine l = false) →
      ∀ l ∈ dedentStep ls, isBlankLine l = false → noLeadSpace l = true) ∧
    ((∀ l ∈ ls, startsFourSpaces l = false) → dedentStep ls = ls) := by
  constructor
  · intro hall hex
    have htot : 0 < dedentTotalCount ls := by
      obtain ⟨l0, hl0, hb⟩ := hex
      have hmem : l0 ∈ ls.filter (fun l => !(isBlankLine l)) :=
        List.mem_filter.mpr ⟨hl0, by simp [hb]⟩
      exact List.length_pos.mpr (List.ne_nil_of_mem hmem)
    have hmono : dedentTotalCount ls ≤ dedentIndentedCount ls := by
      unfold dedentTotalCount dedentIndentedCount
      apply length_filter_le_of_imp
      intro a ha hp
      have hb : isBlankLine a = false := by simpa using hp
      have h4 := hall a ha hb
      unfold exactlyFourIndent at h4
      simp only [Bool.and_eq_true] at h4
      have hne : a.data.isEmpty = false := by
        cases hd : a.data with
        | nil =>
          have hbl : isBlankLine a = true := by
            show (pyStripData a.data).isEmpty = true
            rw [hd]
            rfl
          rw [hbl] at hb
          exact Bool.noConfusion hb
        | cons c cs => rfl
      simp [hne, h4.1]
    have hcond : dedentCond ls = true := by
      unfold dedentCond
      simp only [Bool.and_eq_true, decide_eq_true_eq]
      exact ⟨htot, by omega⟩
    intro l hl hblank
    rw [dedentStep, if_pos hcond] at hl
    obtain ⟨x, hx, hdx⟩ := List.mem_map.mp hl
    have hxblank : isBlankLine x = false := by
      rw [← hdx, isBlank_dedentLine] at hblank
      exact hblank
    have h4 := hall x hx hxblank
    unfold exactlyFourIndent at h4
    simp only [Bool.and_eq_true] at h4
    by_cases hs4 : startsFourSpaces x = true
    · rw [← hdx]
      unfold dedentLine
      rw [if_pos hs4]
      exact h4.2
    · exact absurd h4.1 hs4
  · intro hall
    have hzero : dedentIndentedCount ls = 0 := by
      unfold dedentIndentedCount
      rw [filter_eq_nil_of_false]
      · rfl
      · intro a ha
        simp [hall a ha]
    have hcond : dedentCond ls = false := by
      unfold dedentCond
      rw [hzero]
      simp
    simp [dedentStep, hcond]

/-- Claim C4 witness: the amended statement at concrete inputs. -/
theorem C4_witness :
    (∀ l ∈ dedentStep ["    a"], isBlankLine l = false → noLeadSpace l = true) ∧
    dedentStep ["a"] = ["a"] :=
  ⟨(C4_amended ["    a"]).1 (by decide) ⟨"    a", by decide, by decide⟩,
   (C4_amended ["a"]).2 (by decide)⟩

/-! ### Claim C9: rule order inside doc-block mode -/

/-- Claim C9, counterexample: the line `doc @ """` contains the triple-quote
delimiter and neither drop substring, so by the claim it would end doc-block
mode and the following line `x` would be kept; in the code the `doc @` prefix
rule fires first, the mode persists, and `x` is dropped as well. -/
theorem C9_counterexample :
    strContains "doc @ \"\"\"" tripleQuoteStr = true ∧
    strContains "doc @ \"\"\"" "MAKE_DOCS" = false ∧
    strContains "doc @ \"\"\"" "from cmx import doc" = false ∧
    filterLines (true, false) ["doc @ \"\"\"", "x"] = [] := by
  refine ⟨by decide, by decide, by decide, by decide⟩

/-- Claim C9, amended: while in doc-block mode every line is dropped, and the
substring-drop rules are checked before the termination check, so a line
containing `MAKE_DOCS` or `from cmx import doc` never exits the mode even if
it contains the triple-quote delimiter; the mode is exited exactly on a line
that contains the triple-quote delimiter, contains neither drop substring,
does not strip-start with `MAKE_DOCS =` (subsumed by the substring rule), and
does not strip-start with `doc @`. -/
theorem C9_amended (w : Bool) (l : String) :
    lineStep (true, w) l =
      ((if (strContains l "from cmx import doc" || strContains l "MAKE_DOCS") = false ∧
            strStarts (pyStrip l) "MAKE_DOCS =" = false ∧
            strStarts (pyStrip l) "doc @" = false ∧
            strContains l tripleQuoteStr = true
        then false else true, w), none) := by
  by_cases c1 : (strContains l "from cmx import doc" || strContains l "MAKE_DOCS") = true <;>
  by_cases c2 : strStarts (pyStrip l) "MAKE_DOCS =" = true <;>
  by_cases c3 : strStarts (pyStrip l) "doc @" = true <;>
  by_cases c4 : strContains l tripleQuoteStr = true <;>
    simp [lineStep, c1, c2, c3, c4]

/-! ### Claim C6: the with-block flag is unobservable -/

lemma lineStep_proj (db wb : Bool) (l : String) :
    ((lineStep (db, wb) l).1.1, (lineStep (db, wb) l).2) = lineStepNoWith db l := by
  simp only [lineStep, lineStepNoWith]
  split_ifs <;> rfl

lemma filterLines_eq_noWith :
    ∀ (ls : List String) (db wb : Bool),
      filterLines (db, wb) ls = filterLinesNoWith db ls := by
  intro ls
  induction ls with
  | nil => intro db wb; rfl
  | cons l ls ih =>
    intro db wb
    have hp := lineStep_proj db wb l
    cases h1 : lineStep (db, wb) l with
    | mk st2 out =>
      cases st2 with
      | mk db2 wb2 =>
        rw [h1] at hp
        cases h2 : lineStepNoWith db l with
        | mk db3 out2 =>
          rw [h2] at hp
          have hdb : db2 = db3 := congrArg Prod.fst hp
          have hout : out = out2 := congrArg Prod.snd hp
          subst hdb
          subst hout
          simp only [filterLines, filterLinesNoWith, h1, h2]
          cases out with
          | none =>
            show filterLines (db2, wb2) ls = filterLinesNoWith db2 ls
            exact ih db2 wb2
          | some o =>
            show o :: filterLines (db2, wb2) ls = o :: filterLinesNoWith db2 ls
            rw [ih db2 wb2]

/-- Claim C6: the with-block flag set by the `with doc` rule is never read, so
the cleaning function is extensionally equal to the variant with that flag
removed. -/
theorem C6_theorem (s : String) : cleanPythonText s = cleanPythonTextNoWith s := by
  unfold cleanPythonText cleanPythonTextNoWith cleanLines cleanLinesNoWith
  rw [filterLines_eq_noWith]

/-! ### Claims C5 and C10: README cleaning -/

lemma readmeFilter_no_opener :
    ∀ (b : Bool) (ls : List String) (l : String), l ∈ readmeFilter b ls →
      (pyStrip l == "```python") = false := by
  intro b ls
  induction ls generalizing b with
  | nil =>
    intro l h
    simp [readmeFilter] at h
  | cons a ls ih =>
    intro l h
    simp only [readmeFilter] at h
    by_cases c1 : (pyStrip a == "```python") = true
    · rw [if_pos c1] at h
      exact ih true l h
    · rw [if_neg c1] at h
      by_cases c2 : (b && (pyStrip a == "```")) = true
      · rw [if_pos c2] at h
        exact ih false l h
      · rw [if_neg c2] at h
        by_cases c3 : b = true
        · rw [if_pos c3] at h
          exact ih b l h
        · rw [if_neg c3] at h
          rcases List.mem_cons.mp h with he | hm
          · subst he
            simpa using c1
          · exact ih b l hm

lemma readmeFilter_id_of_no_opener :
    ∀ ls, (∀ l ∈ ls, (pyStrip l == "```python") = false) →
      readmeFilter false ls = ls := by
  intro ls
  induction ls with
  | nil => intro _; rfl
  | cons a ls ih =>
    intro h
    have ha := h a (List.mem_cons_self a ls)
    simp only [readmeFilter, ha, Bool.false_eq_true, if_false, Bool.false_and]
    rw [ih (fun b hb => h b (List.mem_cons_of_mem a hb))]

lemma readmeFilter_drop_all :
    ∀ ls, (∀ l ∈ ls, (pyStrip l == "```") = false) →
      readmeFilter true ls = [] := by
  intro ls
  induction ls with
  | nil => intro _; rfl
  | cons a ls ih =>
    intro h
    have ha := h a (List.mem_cons_self a ls)
    have ih2 := ih (fun b hb => h b (List.mem_cons_of_mem a hb))
    by_cases c1 : (pyStrip a == "```python") = true
    · simp only [readmeFilter, c1, if_true]
      exact ih2
    · simp only [readmeFilter, if_neg c1, Bool.true_and, ha, Bool.false_eq_true,
        if_false, if_true]
      exact ih2

/-- Claim C5: for every documentation line list, the cleaned README has no
line whose stripped content is the opening marker (hence contains no fenced
code block delimited by the recognized markers), it ends with the fixed usage
section, and that usage section contains the install command, the run
command, and the literal default URL. -/
theorem C5_theorem (ls : List String) :
    ((cleanReadmeLines ls).filter (fun l => pyStrip l == "```python")) = [] ∧
    (∃ pre, cleanReadmeLines ls = pre ++ usageLines) ∧
    "pip install -r requirements.txt" ∈ usageLines ∧
    "python main.py" ∈ usageLines ∧
    strContains (joinLines usageLines) "http://localhost:8012" = true := by
  refine ⟨?_, ⟨readmeFilter false ls, rfl⟩, by decide, by decide, by decide⟩
  unfold cleanReadmeLines
  rw [List.filter_append]
  have h1 : (readmeFilter false ls).filter (fun l => pyStrip l == "```python") = [] :=
    filter_eq_nil_of_false _ _ (fun a ha => readmeFilter_no_opener false ls a ha)
  have h2 : usageLines.filter (fun l => pyStrip l == "```python") = [] := by decide
  rw [h1, h2]
  rfl

lemma readmeFilter_split (op : String) (hop : (pyStrip op == "```python") = true) :
    ∀ pre post, (∀ l ∈ pre, (pyStrip l == "```python") = false) →
      readmeFilter false (pre ++ op :: post) = pre ++ readmeFilter true post := by
  intro pre
  induction pre with
  | nil =>
    intro post _
    simp only [List.nil_append, readmeFilter, hop, if_true]
  | cons a pre ih =>
    intro post h
    have ha := h a (List.mem_cons_self a pre)
    simp only [List.cons_append, readmeFilter, ha, Bool.false_eq_true, if_false,
      Bool.false_and, List.append_eq]
    rw [ih post (fun b hb => h b (List.mem_cons_of_mem a hb))]

/-- Claim C10: if the documentation contains a line stripping to the opening
marker with no later line stripping to the closing marker, everything from
the opener to the end of the document is dropped and the output is the lines
before the opener followed by the fixed usage section; and a closing-marker
line encountered outside a fence is retained verbatim. -/
theorem C10_theorem :
    (∀ pre op post, (∀ l ∈ pre, (pyStrip l == "```python") = false) →
      (pyStrip op == "```python") = true →
      (∀ l ∈ post, (pyStrip l == "```") = false) →
      cleanReadmeLines (pre ++ op :: post) = pre ++ usageLines) ∧
    (∀ l ls, (pyStrip l == "```") = true →
      readmeFilter false (l :: ls) = l :: readmeFilter false ls) := by
  constructor
  · intro pre op post hpre hop hpost
    unfold cleanReadmeLines
    rw [readmeFilter_split op hop pre post hpre, readmeFilter_drop_all post hpost]
    simp
  · intro l ls h
    have hne : (pyStrip l == "```python") = false := by
      have heq : pyStrip l = "```" := by simpa using h
      rw [heq]
      decide
    simp [readmeFilter, hne]

/-- Claim C10 witness: the statement at concrete inputs. -/
theorem C10_witness :
    cleanReadmeLines (["intro"] ++ "```python" :: ["code"]) = ["intro"] ++ usageLines ∧
    readmeFilter false ("```" :: ["x"]) = "```" :: readmeFilter false ["x"] :=
  ⟨C10_theorem.1 ["intro"] "```python" ["code"] (by decide) (by decide) (by decide),
   C10_theorem.2 "```" ["x"] (by decide)⟩

/-! ### Claims C7 and C8: exit codes and dry-run frame property -/

/-- Claim C7: the modelled `main` returns exit status 1 (and creates no
directory) when the source directory does not exist; returns 0 on normal
completion with no `--example` filter, however many examples were discovered
(including none); returns 1 and creates no directory when the requested
`--example` name matches no discovered example; and returns 0 when the filter
matches. -/
theorem C7_theorem (dr : Bool) (ex : String → Bool) (readF : String → String)
    (sd tb cwd : String) (exs : List (String × String × Option String))
    (filt : Option String) :
    ((mainRun dr ex readF sd tb cwd false exs filt).1 = 1 ∧
      (mainRun dr ex readF sd tb cwd false exs filt).2.filter Effect.isMkdir = []) ∧
    (mainRun dr ex readF sd tb cwd true exs none).1 = 0 ∧
    (∀ name, (exs.filter (fun e => e.1 == name)).isEmpty = true →
      (mainRun dr ex readF sd tb cwd true exs (some name)).1 = 1 ∧
      (mainRun dr ex readF sd tb cwd true exs (some name)).2.filter
        Effect.isMkdir = []) ∧
    (∀ name, (exs.filter (fun e => e.1 == name)).isEmpty = false →
      (mainRun dr ex readF sd tb cwd true exs (some name)).1 = 0) := by
  refine ⟨⟨rfl, rfl⟩, rfl, ?_, ?_⟩
  · intro name h
    constructor
    · simp [mainRun, h]
    · simp [mainRun, h, Effect.isMkdir]
  · intro name h
    simp [mainRun, h]

/-- Claim C7 witness: the hypotheses discharged at concrete inputs. -/
theorem C7_witness :
    ((mainRun false (fun _ => true) (fun _ => "") "s" "t" "c" false
        [("a", "a.py", none)] none).1 = 1 ∧
      (mainRun false (fun _ => true) (fun _ => "") "s" "t" "c" false
        [("a", "a.py", none)] none).2.filter Effect.isMkdir = []) ∧
    (mainRun false (fun _ => true) (fun _ => "") "s" "t" "c" true
        [("a", "a.py", none)] none).1 = 0 ∧
    ((mainRun false (fun _ => true) (fun _ => "") "s" "t" "c" true
        [("a", "a.py", none)] (some "missing")).1 = 1 ∧
      (mainRun false (fun _ => true) (fun _ => "") "s" "t" "c" true
        [("a", "a.py", none)] (some "missing")).2.filter Effect.isMkdir = []) ∧
    (mainRun false (fun _ => true) (fun _ => "") "s" "t" "c" true
        [("a", "a.py", none)] (some "a")).1 = 0 := by
  obtain ⟨h1, h2, h3, h4⟩ := C7_theorem false (fun _ => true) (fun _ => "") "s" "t" "c"
    [("a", "a.py", none)] none
  exact ⟨h1, h2, h3 "missing" (by decide), h4 "a" (by decide)⟩

lemma createRepo_dry_all_print (ex : String → Bool) (readF : String → String)
    (sd tb cwd name py : String) (md : Option String) :
    (createExampleRepoActions true ex readF sd tb cwd name py md).all
      Effect.isPrintMsg = true := rfl

lemma processExample_dry_all_print (ex : String → Bool) (readF : String → String)
    (sd tb cwd : String) (e : String × String × Option String) :
    (processExample true ex readF sd tb cwd e).all Effect.isPrintMsg = true := rfl

lemma mainProcessed_all_print (ex : String → Bool) (readF : String → String)
    (sd tb cwd : String) (es : List (String × String × Option String)) :
    ((es.map (processExample true ex readF sd tb cwd)).flatten).all
      Effect.isPrintMsg = true := by
  induction es with
  | nil => rfl
  | cons e es ih =>
    simp only [List.map_cons, List.flatten_cons, List.all_append]
    rw [ih, processExample_dry_all_print]
    rfl

/-- Claim C8: with `--dry-run` set, a full run emits only `print` effects —
no directory creation, no copy, no write, no subprocess invocation, no
working-directory change — however many examples were discovered and whatever
the filter. -/
theorem C8_theorem (ex : String → Bool) (readF : String → String)
    (sd tb cwd : String) (se : Bool)
    (exs : List (String × String × Option String)) (filt : Option String) :
    (mainRun true ex readF sd tb cwd se exs filt).2.all Effect.isPrintMsg = true := by
  cases se with
  | false => rfl
  | true =>
    cases filt with
    | none =>
      show (Effect.print "Found examples" ::
        ((exs.map (processExample true ex readF sd tb cwd)).flatten ++
          [Effect.print "Summary"])).all Effect.isPrintMsg = true
      simp only [List.all_cons, List.all_append]
      rw [mainProcessed_all_print]
      rfl
    | some name =>
      by_cases h : (exs.filter (fun e => e.1 == name)).isEmpty = true
      · simp [mainRun, h, Effect.isPrintMsg]
      · have h2 : (exs.filter (fun e => e.1 == name)).isEmpty = false := by
          simpa using h
        simp only [mainRun, h2, Bool.false_eq_true, if_false, if_true,
          List.all_cons, List.all_append]
        rw [mainProcessed_all_print]
        rfl

/-! ### Claim C3: idempotence of source cleaning

A line is `keepSafe` when it triggers none of the drop rules; every line
emitted by the filtering pass is `keepSafe`, and the filtering pass is the
identity on lists of `keepSafe` lines.  Dedenting and leading-blank removal
preserve `keepSafe`, blankness and newline-freeness, so a second cleaning
pass can only act through the dedent heuristic. -/

/-- The line matches none of the drop rules of `_clean_python_file`. -/
def keepSafe (l : String) : Bool :=
  !(strContains l "from cmx import doc") && !(strContains l "MAKE_DOCS") &&
    !(strStarts (pyStrip l) "MAKE_DOCS =") && !(strStarts (pyStrip l) "doc @") &&
    !(strContains l "with doc") && !(strContains l "from contextlib import nullcontext")

/-- The line contains no newline character. -/
def noNL (l : String) : Bool := l.data.all (fun c => !(c = nlChar))

lemma filterLines_cons_some (st st2 : Bool × Bool) (o a : String) (ls : List String)
    (h : lineStep st a = (st2, some o)) :
    filterLines st (a :: ls) = o :: filterLines st2 ls := by
  show (match lineStep st a with
    | (st2, some out) => out :: filterLines st2 ls
    | (st2, none) => filterLines st2 ls) = o :: filterLines st2 ls
  rw [h]

lemma filterLines_cons_none (st st2 : Bool × Bool) (a : String) (ls : List String)
    (h : lineStep st a = (st2, none)) :
    filterLines st (a :: ls) = filterLines st2 ls := by
  show (match lineStep st a with
    | (st2, some out) => out :: filterLines st2 ls
    | (st2, none) => filterLines st2 ls) = filterLines st2 ls
  rw [h]

lemma lineStep_safe (wb : Bool) (l : String) (h : keepSafe l = true) :
    lineStep (false, wb) l = ((false, wb), some l) := by
  simp only [keepSafe, Bool.and_eq_true, Bool.not_eq_true'] at h
  obtain ⟨⟨⟨⟨⟨h1, h2⟩, h3⟩, h4⟩, h5⟩, h6⟩ := h
  simp [lineStep, h1, h2, h3, h4, h5, h6]

lemma lineStep_emit (st st2 : Bool × Bool) (a o : String)
    (h : lineStep st a = (st2, some o)) : o = a ∧ keepSafe a = true := by
  cases st with
  | mk db wb =>
    by_cases c1 : (strContains a "from cmx import doc" || strContains a "MAKE_DOCS") = true
    · simp [lineStep, c1] at h
    · by_cases c2 : strStarts (pyStrip a) "MAKE_DOCS =" = true
      · simp [lineStep, c1, c2] at h
      · by_cases c3 : strStarts (pyStrip a) "doc @" = true
        · simp [lineStep, c1, c2, c3] at h
        · by_cases cdb : db = true
          · by_cases c4 : strContains a tripleQuoteStr = true <;>
              simp [lineStep, c1, c2, c3, cdb, c4] at h
          · by_cases c5 : strContains a "with doc" = true
            · simp [lineStep, c1, c2, c3, cdb, c5] at h
            · by_cases c6 : strContains a "from contextlib import nullcontext" = true
              · simp [lineStep, c1, c2, c3, cdb, c5, c6] at h
              · have hred : lineStep (db, wb) a = ((db, wb), some a) := by
                  simp [lineStep, c1, c2, c3, cdb, c5, c6]
                rw [hred] at h
                have ho : some a = some o := congrArg Prod.snd h
                have ho2 : a = o := by injection ho
                refine ⟨ho2.symm, ?_⟩
                have hor : (strContains a "from cmx import doc" ||
                    strContains a "MAKE_DOCS") = false := by simpa using c1
                rw [Bool.or_eq_false_iff] at hor
                have e2 : strStarts (pyStrip a) "MAKE_DOCS =" = false := by
                  simpa using c2
                have e3 : strStarts (pyStrip a) "doc @" = false := by simpa using c3
                have e5 : strContains a "with doc" = false := by simpa using c5
                have e6 : strContains a "from contextlib import nullcontext" = false := by
                  simpa using c6
                simp [keepSafe, hor.1, hor.2, e2, e3, e5, e6]

lemma filterLines_all_safe :
    ∀ (st : Bool × Bool) (ls : List String) (l : String),
      l ∈ filterLines st ls → keepSafe l = true := by
  intro st ls
  induction ls generalizing st with
  | nil =>
    intro l h
    simp [filterLines] at h
  | cons a ls ih =>
    intro l h
    cases h1 : lineStep st a with
    | mk st2 out =>
      cases out with
      | some o =>
        rw [filterLines_cons_some st st2 o a ls h1] at h
        rcases List.mem_cons.mp h with he | hm
        · obtain ⟨ho, hsafe⟩ := lineStep_emit st st2 a o h1
          rw [he, ho]
          exact hsafe
        · exact ih st2 l hm
      | none =>
        rw [filterLines_cons_none st st2 a ls h1] at h
        exact ih st2 l h

lemma filterLines_mem :
    ∀ (st : Bool × Bool) (ls : List String) (l : String),
      l ∈ filterLines st ls → l ∈ ls := by
  intro st ls
  induction ls generalizing st with
  | nil =>
    intro l h
    simp [filterLines] at h
  | cons a ls ih =>
    intro l h
    cases h1 : lineStep st a with
    | mk st2 out =>
      cases out with
      | some o =>
        rw [filterLines_cons_some st st2 o a ls h1] at h
        rcases List.mem_cons.mp h with he | hm
        · obtain ⟨ho, _⟩ := lineStep_emit st st2 a o h1
          rw [he, ho]
          exact List.mem_cons_self a ls
        · exact List.mem_cons_of_mem a (ih st2 l hm)
      | none =>
        rw [filterLines_cons_none st st2 a ls h1] at h
        exact List.mem_cons_of_mem a (ih st2 l h)

lemma filterLines_id_of_safe (wb : Bool) :
    ∀ ls, (∀ l ∈ ls, keepSafe l = true) → filterLines (false, wb) ls = ls := by
  intro ls
  induction ls with
  | nil => intro _; rfl
  | cons a ls ih =>
    intro h
    have ha := lineStep_safe wb a (h a (List.mem_cons_self a ls))
    rw [filterLines_cons_some (false, wb) (false, wb) a a ls ha]
    rw [ih (fun b hb => h b (List.mem_cons_of_mem a hb))]

lemma dropLeadingBlanks_sublist_mem :
    ∀ (ls : List String) (l : String), l ∈ dropLeadingBlanks ls → l ∈ ls := by
  intro ls
  induction ls with
  | nil => intro l h; simp [dropLeadingBlanks] at h
  | cons a ls ih =>
    intro l h
    simp only [dropLeadingBlanks] at h
    by_cases hb : isBlankLine a = true
    · rw [if_pos hb] at h
      exact List.mem_cons_of_mem a (ih l h)
    · rw [if_neg hb] at h
      exact h

lemma dropLeadingBlanks_head :
    ∀ ls : List String, dropLeadingBlanks ls = [] ∨
      ∃ a t, dropLeadingBlanks ls = a :: t ∧ isBlankLine a = false := by
  intro ls
  induction ls with
  | nil => left; rfl
  | cons a ls ih =>
    by_cases hb : isBlankLine a = true
    · rcases ih with h | ⟨b, t, he, hbb⟩
      · left
        simp only [dropLeadingBlanks, if_pos hb]
        exact h
      · right
        exact ⟨b, t, by simp only [dropLeadingBlanks, if_pos hb]; exact he, hbb⟩
    · right
      exact ⟨a, ls, by simp only [dropLeadingBlanks, if_neg hb], by simpa using hb⟩

lemma dropLeadingBlanks_id (a : String) (ls : List String)
    (h : isBlankLine a = false) : dropLeadingBlanks (a :: ls) = a :: ls := by
  simp [dropLeadingBlanks, h]

lemma mem_dedentStep (ls : List String) (l : String) (h : l ∈ dedentStep ls) :
    ∃ x, x ∈ ls ∧ (l = x ∨ l = dedentLine x) := by
  unfold dedentStep at h
  split at h
  · obtain ⟨x, hx, hdx⟩ := List.mem_map.mp h
    exact ⟨x, hx, Or.inr hdx.symm⟩
  · exact ⟨l, h, Or.inl rfl⟩

lemma subOccurs_tail (sub : List Char) (c : Char) (cs : List Char)
    (h : subOccurs sub cs = true) : subOccurs sub (c :: cs) = true := by
  simp [subOccurs, h]

lemma subOccurs_drop (sub : List Char) :
    ∀ (n : Nat) (cs : List Char),
      subOccurs sub (cs.drop n) = true → subOccurs sub cs = true := by
  intro n
  induction n with
  | zero => intro cs h; simpa using h
  | succ n ih =>
    intro cs h
    cases cs with
    | nil => simpa using h
    | cons c cs =>
      have h2 : subOccurs sub (cs.drop n) = true := by simpa using h
      exact subOccurs_tail sub c cs (ih cs h2)

lemma strContains_dedentLine (l sub : String)
    (h : strContains (dedentLine l) sub = true) : strContains l sub = true := by
  unfold dedentLine at h
  split at h
  · exact subOccurs_drop sub.data 4 l.data h
  · exact h

lemma contains_false_dedent (l sub : String) (h : strContains l sub = false) :
    strContains (dedentLine l) sub = false := by
  cases hc : strContains (dedentLine l) sub with
  | false => rfl
  | true =>
    rw [strContains_dedentLine l sub hc] at h
    exact Bool.noConfusion h

lemma pyStrip_dedentLine (l : String) : pyStrip (dedentLine l) = pyStrip l := by
  unfold dedentLine
  split
  case isTrue h =>
    show String.mk (pyStripData (l.data.drop 4)) = String.mk (pyStripData l.data)
    rw [pyStripData_drop4 l h]
  case isFalse h => rfl

lemma keepSafe_dedentLine (l : String) (h : keepSafe l = true) :
    keepSafe (dedentLine l) = true := by
  simp only [keepSafe, Bool.and_eq_true, Bool.not_eq_true'] at h
  obtain ⟨⟨⟨⟨⟨h1, h2⟩, h3⟩, h4⟩, h5⟩, h6⟩ := h
  have g1 := contains_false_dedent l "from cmx import doc" h1
  have g2 := contains_false_dedent l "MAKE_DOCS" h2
  have g5 := contains_false_dedent l "with doc" h5
  have g6 := contains_false_dedent l "from contextlib import nullcontext" h6
  simp [keepSafe, g1, g2, g5, g6, pyStrip_dedentLine, h3, h4]

lemma noNL_dedentLine (l : String) (h : noNL l = true) :
    noNL (dedentLine l) = true := by
  unfold noNL at h
  unfold dedentLine
  split
  · show ((l.data.drop 4).all fun c => !(c = nlChar)) = true
    rw [List.all_eq_true] at h ⊢
    intro c hc
    exact h c (List.drop_subset 4 l.data hc)
  · exact h

lemma splitLinesAux_noNL :
    ∀ (cs acc : List Char), acc.all (fun c => !(c = nlChar)) = true →
      ∀ l ∈ splitLinesAux acc cs, noNL l = true := by
  intro cs
  induction cs with
  | nil =>
    intro acc hacc l h
    simp only [splitLinesAux] at h
    rw [List.mem_singleton.mp h]
    show (acc.reverse).all (fun c => !(c = nlChar)) = true
    rw [List.all_eq_true] at hacc ⊢
    intro c hc
    exact hacc c (List.mem_reverse.mp hc)
  | cons c cs ih =>
    intro acc hacc l h
    simp only [splitLinesAux] at h
    by_cases hc : c = nlChar
    · rw [if_pos hc] at h
      rcases List.mem_cons.mp h with he | hm
      · rw [he]
        show (acc.reverse).all (fun c => !(c = nlChar)) = true
        rw [List.all_eq_true] at hacc ⊢
        intro d hd
        exact hacc d (List.mem_reverse.mp hd)
      · exact ih [] rfl l hm
    · rw [if_neg hc] at h
      refine ih (c :: acc) ?_ l h
      rw [List.all_cons, hacc]
      simp [hc]

lemma splitLines_noNL (s : String) : ∀ l ∈ splitLines s, noNL l = true :=
  splitLinesAux_noNL s.data [] rfl

lemma splitLinesAux_no_nl_single :
    ∀ (xs acc : List Char), xs.all (fun c => !(c = nlChar)) = true →
      splitLinesAux acc xs = [String.mk (acc.reverse ++ xs)] := by
  intro xs
  induction xs with
  | nil => intro acc _; simp [splitLinesAux]
  | cons c xs ih =>
    intro acc h
    rw [List.all_cons, Bool.and_eq_true] at h
    have hcprop : ¬(c = nlChar) := by simpa using h.1
    simp only [splitLinesAux, if_neg hcprop, List.append_eq]
    rw [ih (c :: acc) h.2]
    simp [List.reverse_cons, List.append_assoc]

lemma splitLinesAux_break :
    ∀ (xs acc rest : List Char), xs.all (fun c => !(c = nlChar)) = true →
      splitLinesAux acc (xs ++ nlChar :: rest) =
        String.mk (acc.reverse ++ xs) :: splitLinesAux [] rest := by
  intro xs
  induction xs with
  | nil =>
    intro acc rest _
    simp [splitLinesAux]
  | cons c xs ih =>
    intro acc rest h
    rw [List.all_cons, Bool.and_eq_true] at h
    have hcprop : ¬(c = nlChar) := by simpa using h.1
    simp only [List.cons_append, splitLinesAux, if_neg hcprop, List.append_eq]
    rw [ih (c :: acc) rest h.2]
    simp [List.reverse_cons, List.append_assoc]

lemma join_split :
    ∀ ls : List String, ls ≠ [] → (∀ l ∈ ls, noNL l = true) →
      splitLines (joinLines ls) = ls := by
  intro ls
  induction ls with
  | nil => intro h _; exact absurd rfl h
  | cons a ls ih =>
    intro _ hall
    cases ls with
    | nil =>
      show splitLinesAux [] a.data = [a]
      rw [splitLinesAux_no_nl_single a.data []
        (hall a (List.mem_cons_self a []))]
      simp [stringMk_data]
    | cons b ls2 =>
      show splitLinesAux [] (a.data ++ nlChar :: joinLinesData (b :: ls2)) =
        a :: b :: ls2
      rw [splitLinesAux_break a.data [] (joinLinesData (b :: ls2))
        (hall a (List.mem_cons_self a (b :: ls2)))]
      have ih2 := ih (by simp) (fun l hl => hall l (List.mem_cons_of_mem a hl))
      rw [show splitLinesAux [] (joinLinesData (b :: ls2)) = b :: ls2 from ih2]
      simp [stringMk_data]

lemma cleanLines_all_safe (ls : List String) :
    ∀ l ∈ cleanLines ls, keepSafe l = true := by
  intro l h
  unfold cleanLines at h
  obtain ⟨x, hx, hcase⟩ := mem_dedentStep _ l h
  have hx2 := dropLeadingBlanks_sublist_mem _ x hx
  have hsafe := filterLines_all_safe (false, false) ls x hx2
  rcases hcase with he | he
  · rw [he]; exact hsafe
  · rw [he]; exact keepSafe_dedentLine x hsafe

lemma cleanLines_noNL (s : String) :
    ∀ l ∈ cleanLines (splitLines s), noNL l = true := by
  intro l h
  unfold cleanLines at h
  obtain ⟨x, hx, hcase⟩ := mem_dedentStep _ l h
  have hx2 := dropLeadingBlanks_sublist_mem _ x hx
  have hx3 := filterLines_mem (false, false) (splitLines s) x hx2
  have hnl := splitLines_noNL s x hx3
  rcases hcase with he | he
  · rw [he]; exact hnl
  · rw [he]; exact noNL_dedentLine x hnl

lemma cleanLines_head (ls : List String) :
    cleanLines ls = [] ∨
      ∃ a t, cleanLines ls = a :: t ∧ isBlankLine a = false := by
  unfold cleanLines
  rcases dropLeadingBlanks_head (filterLines (false, false) ls) with h | ⟨a, t, he, hb⟩
  · left
    rw [h]
    rfl
  · rw [he]
    right
    unfold dedentStep
    split
    · exact ⟨dedentLine a, (t.map dedentLine), by simp [List.map_cons],
        by rw [isBlank_dedentLine]; exact hb⟩
    · exact ⟨a, t, rfl, hb⟩

lemma cleanLines_fixpoint (K : List String)
    (hsafe : ∀ l ∈ K, keepSafe l = true)
    (hhead : K = [] ∨ ∃ a t, K = a :: t ∧ isBlankLine a = false)
    (hcond : dedentCond K = false) :
    cleanLines K = K := by
  unfold cleanLines
  rw [filterLines_id_of_safe false K hsafe]
  rcases hhead with h | ⟨a, t, he, hb⟩
  · subst h
    rfl
  · subst he
    rw [dropLeadingBlanks_id a t hb]
    simp [dedentStep, hcond]

/-- Claim C3, counterexample: cleaning is not idempotent — on text whose
lines are indented by eight spaces, each pass removes one four-space level,
so the second pass changes the output of the first. -/
theorem C3_counterexample :
    cleanPythonText (cleanPythonText "        a\n        b") ≠
      cleanPythonText "        a\n        b" := by decide

/-- Claim C3, amended: source cleaning is idempotent on every input whose
cleaned line list does not trigger the dedent heuristic again (the filtering
and leading-blank-removal passes are always the identity on cleaned text);
when the cleaned text still has more than half of its counted lines
four-space-indented, a second pass removes one further indent level. -/
theorem C3_amended (t : String)
    (h : dedentCond (cleanLines (splitLines t)) = false) :
    cleanPythonText (cleanPythonText t) = cleanPythonText t := by
  have hsafe := cleanLines_all_safe (splitLines t)
  have hnl := cleanLines_noNL t
  have hhead := cleanLines_head (splitLines t)
  cases hK : cleanLines (splitLines t) with
  | nil =>
    unfold cleanPythonText
    rw [hK]
    decide
  | cons a as =>
    unfold cleanPythonText
    rw [hK]
    rw [hK] at hsafe hnl hhead h
    have hsplit : splitLines (joinLines (a :: as)) = a :: as :=
      join_split (a :: as) (by simp) hnl
    rw [hsplit]
    rw [cleanLines_fixpoint (a :: as) hsafe hhead h]

/-- Claim C3 witness: the amended statement at a concrete input. -/
theorem C3_witness :
    dedentCond (cleanLines (splitLines "x = 1\ny = 2")) = false ∧
    cleanPythonText (cleanPythonText "x = 1\ny = 2") =
      cleanPythonText "x = 1\ny = 2" :=
  ⟨by decide, C3_amended "x = 1\ny = 2" (by decide)⟩
